import Mathlib

/-!
# Verification of the Feminizer-voice frequency-analysis core

A shallow embedding of `src/audio_processor.rs` and the result-mailbox /
polling logic of `src/main.rs`, together with theorems settling the frozen
claims about the streaming frequency-analysis engine.

Modelling conventions:
* `f32` values are modelled as real numbers (exact arithmetic);
* the forward FFT computed by `rustfft` is modelled as the unnormalized
  forward discrete Fourier transform `X[k] = Σ_j x_j · exp(-2πi·j·k/N)`;
* `usize` casts of nonnegative `f32` values are modelled by `Nat.floor`;
* the fallible `try_lock` paths are modelled in their uncontended case
  (the claims about the mailbox are explicitly scoped to the absence of
  contention).
-/

open scoped Real
open scoped Classical

namespace Feminizer

/-- `FrequencyData` (audio_processor.rs, lines 7-10): the result of one
window analysis. -/
structure FrequencyData where
  dominant_frequency : ℝ
  amplitude : ℝ

/-- The state of `FrequencyProcessor` (audio_processor.rs, lines 106-113).
The `fft_planner` field is omitted: it only caches the transform plan and
has no effect on results. -/
structure FrequencyProcessor where
  sample_rate : ℝ
  buffer_size : ℕ
  buffer : List ℝ
  window : List ℝ
  buffer_pos : ℕ

/-- One Hann-window coefficient, as computed in `FrequencyProcessor::new`
(audio_processor.rs, lines 117-122):
`0.5 * (1 - cos(2π·i / (buffer_size - 1)))`, where `buffer_size - 1` is a
`usize` subtraction. -/
noncomputable def hannCoeff (N : ℕ) (i : ℕ) : ℝ :=
  0.5 * (1 - Real.cos (2 * π * i / ((N - 1 : ℕ) : ℝ)))

/-- The precomputed Hann window vector of `FrequencyProcessor::new`. -/
noncomputable def hannWindow (N : ℕ) : List ℝ :=
  (List.range N).map (hannCoeff N)

/-- `FrequencyProcessor::new` (audio_processor.rs, lines 116-132). -/
noncomputable def FrequencyProcessor.new (sample_rate : ℝ) (buffer_size : ℕ) :
    FrequencyProcessor where
  sample_rate := sample_rate
  buffer_size := buffer_size
  buffer := List.replicate buffer_size 0
  window := hannWindow buffer_size
  buffer_pos := 0

/-- The unnormalized forward discrete Fourier transform of length `N`,
as computed by `rustfft`'s `plan_fft_forward(N)` / `process`
(audio_processor.rs, lines 154-156): `X[k] = Σ_{j<N} x_j·exp(-2πi·j·k/N)`. -/
noncomputable def dft (N : ℕ) (x : ℕ → ℂ) (k : ℕ) : ℂ :=
  ∑ j ∈ Finset.range N, x j * Complex.exp (-(2 * (π : ℂ) * Complex.I) * (j * k) / N)

/-- The windowed complex input fed to the FFT (audio_processor.rs,
lines 147-152): `Complex::new(sample * window_val, 0.0)` over
`buffer.iter().zip(window.iter())`. -/
noncomputable def windowedInput (st : FrequencyProcessor) : List ℂ :=
  st.buffer.zipWith (fun s w => ((s * w : ℝ) : ℂ)) st.window

/-- The magnitude spectrum (audio_processor.rs, lines 158-161): norms of
the first `buffer_size / 2` FFT output values. -/
noncomputable def spectrumOf (st : FrequencyProcessor) : List ℝ :=
  (List.range (st.buffer_size / 2)).map
    (fun k => Complex.abs (dft st.buffer_size (fun j => (windowedInput st).getD j 0) k))

/-- `min_bin` (audio_processor.rs, line 163): the `as usize` cast of the
nonnegative `f32` value `50 * buffer_size / sample_rate` truncates, i.e.
takes the floor. -/
noncomputable def minBinOf (sample_rate : ℝ) (buffer_size : ℕ) : ℕ :=
  ⌊(50 * (buffer_size : ℝ) / sample_rate : ℝ)⌋₊

/-- `max_bin` before clamping (audio_processor.rs, line 164). -/
noncomputable def maxBinRawOf (sample_rate : ℝ) (buffer_size : ℕ) : ℕ :=
  ⌊(450 * (buffer_size : ℝ) / sample_rate : ℝ)⌋₊

/-- The peak-search loop (audio_processor.rs, lines 167-175): scan bins
`lo ..= hi`, tracking the strictly greatest magnitude, starting from
`max_magnitude = 0.0, dominant_bin = 0`.  Returns
`(max_magnitude, dominant_bin)`. -/
noncomputable def peakScan (spectrum : List ℝ) (lo hi : ℕ) : ℝ × ℕ :=
  (List.range' lo (hi + 1 - lo)).foldl
    (fun acc i => if spectrum.getD i 0 > acc.1 then (spectrum.getD i 0, i) else acc)
    (0, 0)

/-- The parabolic-interpolation refinement (audio_processor.rs,
lines 177-192), computing the pre-gate `dominant_frequency` value from the
selected bin. -/
noncomputable def interpolateFrequency (spectrum : List ℝ) (sample_rate : ℝ)
    (buffer_size : ℕ) (dominant_bin : ℕ) : ℝ :=
  if dominant_bin > 0 ∧ dominant_bin < spectrum.length - 1 then
    let y1 := spectrum.getD (dominant_bin - 1) 0
    let y2 := spectrum.getD dominant_bin 0
    let y3 := spectrum.getD (dominant_bin + 1) 0
    let a := (y1 - 2 * y2 + y3) / 2
    let b := (y3 - y1) / 2
    let x_offset := if a ≠ 0 then -b / (2 * a) else 0
    let bin_frequency := (dominant_bin : ℝ) * sample_rate / (buffer_size : ℝ)
    let frequency_resolution := sample_rate / (buffer_size : ℝ)
    bin_frequency + x_offset * frequency_resolution
  else
    (dominant_bin : ℝ) * sample_rate / (buffer_size : ℝ)

/-- `FrequencyProcessor::analyze_frequency` (audio_processor.rs,
lines 146-205).  The `&mut self` receiver only mutates the FFT planner
cache, so the analysis is modelled as a pure function of the state. -/
noncomputable def analyze_frequency (st : FrequencyProcessor) : FrequencyData :=
  let spectrum := spectrumOf st
  let min_bin := minBinOf st.sample_rate st.buffer_size
  let max_bin := min (maxBinRawOf st.sample_rate st.buffer_size) (spectrum.length - 1)
  let scan := peakScan spectrum min_bin max_bin
  let dominant_frequency :=
    interpolateFrequency spectrum st.sample_rate st.buffer_size scan.2
  let rms := (st.buffer.map (fun x => x * x)).sum / (st.buffer.length : ℝ)
  { dominant_frequency := if scan.1 > 0.001 then dominant_frequency else 0
    amplitude := Real.sqrt rms }

/-- `FrequencyProcessor::process_samples` (audio_processor.rs,
lines 134-144): write each sample at `buffer_pos`, advance the cursor
modulo `buffer_size`, and return the analysis immediately when the cursor
wraps to `0`.  Returns the updated state together with the optional
result. -/
noncomputable def process_samples :
    FrequencyProcessor → List ℝ → FrequencyProcessor × Option FrequencyData
  | st, [] => (st, none)
  | st, sample :: rest =>
    let st' : FrequencyProcessor :=
      { st with buffer := st.buffer.set st.buffer_pos sample
                buffer_pos := (st.buffer_pos + 1) % st.buffer_size }
    if st'.buffer_pos = 0 then (st', some (analyze_frequency st'))
    else process_samples st' rest

/-- Modelled from the spec (§4.2 RingAggregator.push), whose words define
the claimed latest-wins contract: process every incoming sample through
the ring buffer and report the analysis of the **last** window completion
occurring within the call (earlier completions are superseded); the code
under scrutiny (`process_samples`) is compared against this. -/
noncomputable def push_spec (st : FrequencyProcessor) (samples : List ℝ) :
    FrequencyProcessor × Option FrequencyData :=
  samples.foldl
    (fun acc sample =>
      let st' : FrequencyProcessor :=
        { acc.1 with buffer := acc.1.buffer.set acc.1.buffer_pos sample
                     buffer_pos := (acc.1.buffer_pos + 1) % acc.1.buffer_size }
      if st'.buffer_pos = 0 then (st', some (analyze_frequency st'))
      else (st', acc.2))
    (st, none)

/-- The mono downmix of the capture callback (audio_processor.rs,
lines 74-88), `data.chunks(channels)` step: split a slice into consecutive
chunks of size `C` (the last chunk may be shorter).  `C = 0` panics in
Rust and is left out of the model. -/
def listChunks : ℕ → List ℝ → List (List ℝ)
  | _, [] => []
  | 0, _ :: _ => []
  | c + 1, x :: xs => ((x :: xs).take (c + 1)) :: listChunks (c + 1) ((x :: xs).drop (c + 1))
termination_by _ l => l.length
decreasing_by
  simp only [List.length_drop, List.length_cons]
  omega

/-- The sample normalization of the capture callback (audio_processor.rs,
lines 74-88).  Samples are modelled after cpal's `to_sample::<f32>`
conversion (the conversion itself is cpal's, external to the repository),
so the `channels == 1` branch is the identity and the multi-channel branch
averages each chunk. -/
noncomputable def monoSamples (channels : ℕ) (data : List ℝ) : List ℝ :=
  if channels = 1 then data
  else (listChunks channels data).map (fun chunk => chunk.sum / (channels : ℝ))

/-- The mailbox write of the capture callback (audio_processor.rs,
lines 90-96) in the uncontended case: `*data_guard = Some(result)`
overwrites the shared slot. -/
def publish (_slot : Option FrequencyData) (result : FrequencyData) :
    Option FrequencyData :=
  some result

/-- The mailbox read of `VoiceFrequencyApp::update_frequency_data`
(main.rs, lines 80-113) in the uncontended case: the slot content is read
via `data_guard.as_ref()` and never cleared.  Returns the value read
together with the slot state afterwards. -/
def poll (slot : Option FrequencyData) : Option FrequencyData × Option FrequencyData :=
  (slot, slot)

/-! ## An explicit family of analysis windows with a two-line spectrum

For the reference window size `N = 1024` and sample rate `sr = 51200`
(so that the search band is exactly bins `1 ..= 9`), we construct real
sample sequences whose windowed DFT is supported on bins
`{0, 1, 11, 13}` (and their conjugates): bin `0` carries `A0`, bin `1`
carries `A1`, and the two auxiliary bins `11, 13` (outside the search
band and away from bin `1`'s neighbors) carry whatever is needed to make
the windowed signal vanish at the two endpoints, where the Hann window is
zero.  The samples are obtained by dividing the target windowed signal by
the Hann coefficients. -/

/-- `cos(2πk/1024)`. -/
noncomputable def cc (k : ℕ) : ℝ := Real.cos (2 * π * k / 1024)

/-- Coefficient of bins `13`/`1011`, chosen so the target windowed signal
vanishes at index `1023`. -/
noncomputable def mixV (A0 A1 : ℝ) : ℝ :=
  (A0 * cc 11 + 2 * A1 * cc 11 - A0 - 2 * A1 * cc 1) / (2 * (cc 13 - cc 11))

/-- Coefficient of bins `11`/`1013`, chosen so the target windowed signal
vanishes at index `0`. -/
noncomputable def mixU (A0 A1 : ℝ) : ℝ := -(A0 / 2) - A1 - mixV A0 A1

/-- The target windowed signal: inverse DFT of the spectrum supported on
bins `{0, 1, 11, 13}` and conjugates. -/
noncomputable def mixX (A0 A1 : ℝ) (j : ℕ) : ℝ :=
  (A0 + 2 * A1 * cc j + 2 * mixU A0 A1 * cc (11 * j) +
    2 * mixV A0 A1 * cc (13 * j)) / 1024

/-- The raw input samples: target windowed signal divided by the Hann
coefficients. -/
noncomputable def mixSample (A0 A1 : ℝ) (j : ℕ) : ℝ :=
  mixX A0 A1 j / hannCoeff 1024 j

noncomputable def mixSamples (A0 A1 : ℝ) : List ℝ :=
  (List.range 1024).map (mixSample A0 A1)

/-- The processor state holding a completed window of the constructed
samples (`sr = 51200`, `N = 1024`), as produced by feeding
`mixSamples A0 A1` to a fresh processor. -/
noncomputable def mixState (A0 A1 : ℝ) : FrequencyProcessor :=
  ⟨51200, 1024, mixSamples A0 A1, hannWindow 1024, 0⟩

/-- `exp(2πi·m·j/1024)`: the `m`-th Fourier basis sequence. -/
noncomputable def bexp (m j : ℕ) : ℂ :=
  Complex.exp (2 * (π : ℂ) * Complex.I * m * j / 1024)

/-- `exp(2πi·t·j/1024)` for an integer `t`. -/
noncomputable def eunit (t : ℤ) (j : ℕ) : ℂ :=
  Complex.exp (2 * (π : ℂ) * Complex.I * t * j / 1024)

/-! ## Basic unfolding lemmas -/

lemma analyze_frequency_amplitude (st : FrequencyProcessor) :
    (analyze_frequency st).amplitude =
      Real.sqrt ((st.buffer.map (fun x => x * x)).sum / (st.buffer.length : ℝ)) := by
  simp [analyze_frequency]

lemma analyze_frequency_dominant (st : FrequencyProcessor) :
    (analyze_frequency st).dominant_frequency =
      (if (peakScan (spectrumOf st) (minBinOf st.sample_rate st.buffer_size)
            (min (maxBinRawOf st.sample_rate st.buffer_size) ((spectrumOf st).length - 1))).1
          > 0.001
       then interpolateFrequency (spectrumOf st) st.sample_rate st.buffer_size
              (peakScan (spectrumOf st) (minBinOf st.sample_rate st.buffer_size)
                (min (maxBinRawOf st.sample_rate st.buffer_size)
                  ((spectrumOf st).length - 1))).2
       else 0) := by
  simp [analyze_frequency]

/-! ## C6 — amplitude is the RMS of the raw window -/

/-- C6: for every window content, the reported amplitude equals
`sqrt((Σ sample_i²) / N)`, the RMS of the `N` raw (unwindowed) samples;
the equation holds for every processor state (hence on every completed
window, silent or not), independently of the spectral path. -/
theorem C6_amplitude_rms (st : FrequencyProcessor)
    (h : st.buffer.length = st.buffer_size) :
    (analyze_frequency st).amplitude =
      Real.sqrt ((st.buffer.map (fun x => x * x)).sum / (st.buffer_size : ℝ)) := by
  rw [analyze_frequency_amplitude, h]

/-- Witness for C6 at a concrete state. -/
theorem C6_amplitude_rms_witness :
    (FrequencyProcessor.new 8 4).buffer.length = (FrequencyProcessor.new 8 4).buffer_size ∧
    (analyze_frequency (FrequencyProcessor.new 8 4)).amplitude =
      Real.sqrt (((FrequencyProcessor.new 8 4).buffer.map (fun x => x * x)).sum /
        ((FrequencyProcessor.new 8 4).buffer_size : ℝ)) :=
  ⟨by simp [FrequencyProcessor.new], C6_amplitude_rms (FrequencyProcessor.new 8 4)
    (by simp [FrequencyProcessor.new])⟩

/-! ## C9 — mailbox: overwrite on publish, poll does not clear -/

/-- C9: in the absence of contention, `publish` overwrites the slot with
`Some(result)`; after `publish A` then `publish B`, `poll` returns `B` and
(when `A ≠ B`) never `A`; and repeated polls without an intervening publish
return `B` again, the slot being left unchanged by `poll`. -/
theorem C9_mailbox (slot : Option FrequencyData) (A B : FrequencyData)
    (hAB : A ≠ B) :
    publish slot B = some B ∧
    (poll (publish (publish slot A) B)).1 = some B ∧
    (poll (publish (publish slot A) B)).1 ≠ some A ∧
    (poll (publish (publish slot A) B)).2 = publish (publish slot A) B ∧
    (poll ((poll (publish (publish slot A) B)).2)).1 = some B := by
  refine ⟨rfl, rfl, ?_, rfl, rfl⟩
  intro h
  simp only [publish, poll, Option.some.injEq] at h
  exact hAB h.symm

/-- Witness for C9 at two concrete, distinct results. -/
theorem C9_mailbox_witness :
    FrequencyData.mk 0 0 ≠ FrequencyData.mk 1 0 ∧
    (publish none (FrequencyData.mk 1 0) = some (FrequencyData.mk 1 0) ∧
     (poll (publish (publish none (FrequencyData.mk 0 0)) (FrequencyData.mk 1 0))).1 =
       some (FrequencyData.mk 1 0) ∧
     (poll (publish (publish none (FrequencyData.mk 0 0)) (FrequencyData.mk 1 0))).1 ≠
       some (FrequencyData.mk 0 0) ∧
     (poll (publish (publish none (FrequencyData.mk 0 0)) (FrequencyData.mk 1 0))).2 =
       publish (publish none (FrequencyData.mk 0 0)) (FrequencyData.mk 1 0) ∧
     (poll ((poll (publish (publish none (FrequencyData.mk 0 0))
         (FrequencyData.mk 1 0))).2)).1 = some (FrequencyData.mk 1 0)) := by
  have hAB : FrequencyData.mk 0 0 ≠ FrequencyData.mk 1 0 := by
    intro h
    have := congrArg FrequencyData.dominant_frequency h
    norm_num at this
  exact ⟨hAB, C9_mailbox none (FrequencyData.mk 0 0) (FrequencyData.mk 1 0) hAB⟩

/-! ## C5 — parabolic interpolation formula -/

/-- C5: for a window whose peak bin `b` is interior
(`0 < b < len(spectrum)-1`), the refined frequency equals
`(b + offset)·(sr/N)` with `offset = -d/(2a)`, `a = (y1-2y2+y3)/2`,
`d = (y3-y1)/2` when `a ≠ 0`, and `offset = 0` (bin-center frequency)
when `a = 0`; at either spectrum boundary, interpolation is skipped and
the raw bin-center frequency `b·(sr/N)` is used. -/
theorem C5_interpolation (spectrum : List ℝ) (sr : ℝ) (N : ℕ) (b : ℕ)
    (y1 y2 y3 : ℝ) (h1 : spectrum.getD (b - 1) 0 = y1)
    (h2 : spectrum.getD b 0 = y2) (h3 : spectrum.getD (b + 1) 0 = y3) :
    (0 < b → b < spectrum.length - 1 →
      ((y1 - 2 * y2 + y3 ≠ 0 →
          interpolateFrequency spectrum sr N b =
            ((b : ℝ) + -((y3 - y1) / 2) / (2 * ((y1 - 2 * y2 + y3) / 2))) * (sr / (N : ℝ))) ∧
       (y1 - 2 * y2 + y3 = 0 →
          interpolateFrequency spectrum sr N b = (b : ℝ) * (sr / (N : ℝ))))) ∧
    (¬(0 < b ∧ b < spectrum.length - 1) →
      interpolateFrequency spectrum sr N b = (b : ℝ) * (sr / (N : ℝ))) := by
  subst h1 h2 h3
  simp only [interpolateFrequency]
  constructor
  · intro hb hlt
    rw [if_pos ⟨hb, hlt⟩]
    constructor
    · intro ha
      rw [if_pos (div_ne_zero ha two_ne_zero)]
      ring
    · intro ha
      rw [if_neg (by simp only [ne_eq, not_not, ha, zero_div])]
      ring
  · intro hb
    rw [if_neg hb]
    ring

/-- Witness for C5: an interior peak with `a ≠ 0`, an interior peak with
`a = 0`, and a boundary peak, at concrete inputs. -/
theorem C5_interpolation_witness :
    (interpolateFrequency [0, 1, 3, 0] 8 4 1 =
      (((1 : ℕ) : ℝ) + -(((3 : ℝ) - 0) / 2) / (2 * (((0 : ℝ) - 2 * 1 + 3) / 2))) *
        (8 / ((4 : ℕ) : ℝ))) ∧
    (interpolateFrequency [1, 1, 1, 0] 8 4 1 = ((1 : ℕ) : ℝ) * (8 / ((4 : ℕ) : ℝ))) ∧
    (interpolateFrequency [0, 1, 3, 0] 8 4 3 = ((3 : ℕ) : ℝ) * (8 / ((4 : ℕ) : ℝ))) := by
  refine ⟨?_, ?_, ?_⟩
  · exact ((C5_interpolation [0, 1, 3, 0] 8 4 1 0 1 3 rfl rfl rfl).1
      (by norm_num) (by norm_num)).1 (by norm_num)
  · exact ((C5_interpolation [1, 1, 1, 0] 8 4 1 1 1 1 rfl rfl rfl).1
      (by norm_num) (by norm_num)).2 (by norm_num)
  · exact (C5_interpolation [0, 1, 3, 0] 8 4 3 3 0 0 rfl rfl rfl).2 (by norm_num)

/-! ## Control flow of `process_samples` -/

/-- If a call carries at least enough samples to fill the window, then
`process_samples` returns at the sample completing the window: the final
buffer holds `take buffer_pos` of the old content followed by the first
`buffer_size - buffer_pos` input samples, the cursor is `0`, and the
analysis of that buffer is returned. -/
lemma process_samples_of_le_length :
    ∀ (samples : List ℝ) (st : FrequencyProcessor),
      st.buffer.length = st.buffer_size →
      st.buffer_pos < st.buffer_size →
      st.buffer_size - st.buffer_pos ≤ samples.length →
      process_samples st samples =
        (⟨st.sample_rate, st.buffer_size,
            st.buffer.take st.buffer_pos ++
              samples.take (st.buffer_size - st.buffer_pos), st.window, 0⟩,
         some (analyze_frequency ⟨st.sample_rate, st.buffer_size,
            st.buffer.take st.buffer_pos ++
              samples.take (st.buffer_size - st.buffer_pos), st.window, 0⟩)) := by
  intro samples
  induction samples with
  | nil =>
    intro st h1 h2 h3
    simp only [List.length_nil, Nat.le_zero] at h3
    omega
  | cons x rest IH =>
    intro st h1 h2 h3
    by_cases hP : st.buffer_pos + 1 = st.buffer_size
    · have hmod : (st.buffer_pos + 1) % st.buffer_size = 0 := by
        rw [hP]; exact Nat.mod_self _
      have hNpos : st.buffer_size - st.buffer_pos = 1 := by omega
      have hbuf : st.buffer.set st.buffer_pos x =
          st.buffer.take st.buffer_pos ++ (x :: rest).take 1 := by
        rw [List.set_eq_take_cons_drop x (h1 ▸ h2)]
        have : st.buffer.drop (st.buffer_pos + 1) = [] := by
          rw [hP, ← h1]; exact List.drop_length _
        rw [this]
        rfl
      simp only [process_samples, hmod, if_pos rfl]
      rw [hNpos, hbuf]
      simp
    · have hlt : st.buffer_pos + 1 < st.buffer_size := by omega
      have hmod : (st.buffer_pos + 1) % st.buffer_size = st.buffer_pos + 1 :=
        Nat.mod_eq_of_lt hlt
      have hne : (st.buffer_pos + 1) % st.buffer_size ≠ 0 := by omega
      simp only [process_samples, if_neg hne]
      have hIH := IH ⟨st.sample_rate, st.buffer_size,
          st.buffer.set st.buffer_pos x, st.window, st.buffer_pos + 1⟩
        (by simpa using h1) hlt
        (by simp only [List.length_cons] at h3
            show st.buffer_size - (st.buffer_pos + 1) ≤ rest.length
            omega)
      dsimp only at hIH
      rw [hmod, hIH]
      have hbuf : (st.buffer.set st.buffer_pos x).take (st.buffer_pos + 1) ++
          rest.take (st.buffer_size - (st.buffer_pos + 1)) =
          st.buffer.take st.buffer_pos ++
            (x :: rest).take (st.buffer_size - st.buffer_pos) := by
        rw [List.set_eq_take_cons_drop x (h1 ▸ h2),
            List.take_append_eq_append_take, List.take_take]
        have hlen : (st.buffer.take st.buffer_pos).length = st.buffer_pos := by
          rw [List.length_take]; omega
        rw [hlen]
        have h4 : min (st.buffer_pos + 1) st.buffer_pos = st.buffer_pos := by omega
        have h5 : st.buffer_pos + 1 - st.buffer_pos = 1 := by omega
        have h6 : st.buffer_size - st.buffer_pos =
            (st.buffer_size - (st.buffer_pos + 1)) + 1 := by omega
        rw [h4, h5, h6]
        simp
      rw [hbuf]

/-- Once `process_samples` has returned a result, any further samples
appended to the call are ignored: the returned state and result do not
change. -/
lemma process_samples_append_of_some :
    ∀ (pre : List ℝ) (st st2 : FrequencyProcessor) (r : FrequencyData),
      process_samples st pre = (st2, some r) →
      ∀ post, process_samples st (pre ++ post) = (st2, some r) := by
  intro pre
  induction pre with
  | nil =>
    intro st st2 r h post
    simp only [process_samples] at h
    exact absurd (congrArg Prod.snd h) (by simp)
  | cons x rest IH =>
    intro st st2 r h post
    simp only [process_samples] at h ⊢
    by_cases hc : (st.buffer_pos + 1) % st.buffer_size = 0
    · rw [if_pos hc] at h ⊢
      exact h
    · rw [if_neg hc] at h ⊢
      exact IH _ _ _ h post

/-- C2: whenever `process_samples` returns `Some(result)`, the function
returned immediately at the sample completing the window: the final write
cursor is `0`, the input splits as `pre ++ post` where processing `pre`
alone already yields the same final state and result, and every extension
of `pre` (in particular `pre ++ post` itself) yields that same state and
result — the samples after the completing one are discarded and never
written into the analysis window. -/
theorem C2_returns_at_completion :
    ∀ (samples : List ℝ) (st st2 : FrequencyProcessor) (r : FrequencyData),
      process_samples st samples = (st2, some r) →
      st2.buffer_pos = 0 ∧
      ∃ pre post, samples = pre ++ post ∧
        process_samples st pre = (st2, some r) ∧
        ∀ extra, process_samples st (pre ++ extra) = (st2, some r) := by
  intro samples
  induction samples with
  | nil =>
    intro st st2 r h
    simp only [process_samples] at h
    exact absurd (congrArg Prod.snd h) (by simp)
  | cons x rest IH =>
    intro st st2 r h
    simp only [process_samples] at h
    by_cases hc : (st.buffer_pos + 1) % st.buffer_size = 0
    · rw [if_pos hc] at h
      have hst : st2 = ⟨st.sample_rate, st.buffer_size,
          st.buffer.set st.buffer_pos x, st.window,
          (st.buffer_pos + 1) % st.buffer_size⟩ := (congrArg Prod.fst h).symm
      constructor
      · rw [hst]; exact hc
      · refine ⟨[x], rest, rfl, ?_, ?_⟩
        · simp only [process_samples, if_pos hc]
          exact h
        · intro extra
          simp only [List.cons_append, process_samples, if_pos hc]
          exact h
    · rw [if_neg hc] at h
      obtain ⟨hpos, pre, post, heq, hpre, hall⟩ := IH _ _ _ h
      refine ⟨hpos, x :: pre, post, by rw [heq]; rfl, ?_, ?_⟩
      · simp only [process_samples, if_neg hc]
        exact hpre
      · intro extra
        simp only [List.cons_append, process_samples, if_neg hc]
        exact hall extra

/-- Witness for C2 at a concrete two-sample call that completes a
two-sample window. -/
theorem C2_returns_at_completion_witness :
    (⟨44100, 2, [5, 7], hannWindow 2, 0⟩ : FrequencyProcessor).buffer_pos = 0 ∧
    ∃ pre post, [(5 : ℝ), 7] = pre ++ post ∧
      process_samples (FrequencyProcessor.new 44100 2) pre =
        (⟨44100, 2, [5, 7], hannWindow 2, 0⟩,
         some (analyze_frequency ⟨44100, 2, [5, 7], hannWindow 2, 0⟩)) ∧
      ∀ extra, process_samples (FrequencyProcessor.new 44100 2) (pre ++ extra) =
        (⟨44100, 2, [5, 7], hannWindow 2, 0⟩,
         some (analyze_frequency ⟨44100, 2, [5, 7], hannWindow 2, 0⟩)) :=
  C2_returns_at_completion [5, 7] (FrequencyProcessor.new 44100 2)
    ⟨44100, 2, [5, 7], hannWindow 2, 0⟩
    (analyze_frequency ⟨44100, 2, [5, 7], hannWindow 2, 0⟩)
    (by norm_num [process_samples, FrequencyProcessor.new, List.replicate])

/-! ## C1 — which completion of a `k·N`-sample call is reported -/

/-- Counterexample to C1 as stated: with `N = 2` and the single call
`[1, 1, 0, 0]` (`k = 2` full windows), `process_samples` reports the
analysis of the **first** window `[1, 1]`, not — as the latest-wins
contract `push_spec` modelled from the spec demands — the analysis of the
**last** window `[0, 0]`.  The two results differ (amplitude `1` vs `0`),
so the claim is false on the code. -/
theorem C1_counterexample :
    (process_samples (FrequencyProcessor.new 44100 2) [1, 1, 0, 0]).2 ≠
      (push_spec (FrequencyProcessor.new 44100 2) [1, 1, 0, 0]).2 := by
  have hL : (process_samples (FrequencyProcessor.new 44100 2) [1, 1, 0, 0]).2 =
      some (analyze_frequency ⟨44100, 2, [1, 1], hannWindow 2, 0⟩) := by
    norm_num [process_samples, FrequencyProcessor.new, List.replicate]
  have hR : (push_spec (FrequencyProcessor.new 44100 2) [1, 1, 0, 0]).2 =
      some (analyze_frequency ⟨44100, 2, [0, 0], hannWindow 2, 0⟩) := by
    norm_num [push_spec, FrequencyProcessor.new, List.replicate]
  intro h
  rw [hL, hR] at h
  have h2 := Option.some_injective _ h
  have h3 := congrArg FrequencyData.amplitude h2
  rw [analyze_frequency_amplitude, analyze_frequency_amplitude] at h3
  norm_num [Real.sqrt_one] at h3

/-- C1, amended: for a window-aligned state, a single call containing
`k·N` samples (`k ≥ 1`) returns exactly one analysis result, and it is
the analysis of the **first** window completion of the call (the first
`N` samples); the samples after the completing one are discarded without
analysis. -/
theorem C1_amended_first_completion (st : FrequencyProcessor)
    (samples : List ℝ) (k : ℕ)
    (hbuf : st.buffer.length = st.buffer_size) (hpos : st.buffer_pos = 0)
    (hN : 0 < st.buffer_size) (hk : 1 ≤ k)
    (hlen : samples.length = k * st.buffer_size) :
    process_samples st samples =
      (⟨st.sample_rate, st.buffer_size, samples.take st.buffer_size,
          st.window, 0⟩,
       some (analyze_frequency ⟨st.sample_rate, st.buffer_size,
          samples.take st.buffer_size, st.window, 0⟩)) := by
  have h := process_samples_of_le_length samples st hbuf (hpos ▸ hN)
    (by rw [hlen, hpos, Nat.sub_zero]; exact Nat.le_mul_of_pos_left _ hk)
  rw [hpos] at h
  simpa using h

/-- Witness for the amended C1 at `N = 2`, `k = 2`. -/
theorem C1_amended_first_completion_witness :
    process_samples (FrequencyProcessor.new 44100 2) [1, 1, 0, 0] =
      (⟨(FrequencyProcessor.new 44100 2).sample_rate,
          (FrequencyProcessor.new 44100 2).buffer_size,
          [(1 : ℝ), 1, 0, 0].take (FrequencyProcessor.new 44100 2).buffer_size,
          (FrequencyProcessor.new 44100 2).window, 0⟩,
       some (analyze_frequency ⟨(FrequencyProcessor.new 44100 2).sample_rate,
          (FrequencyProcessor.new 44100 2).buffer_size,
          [(1 : ℝ), 1, 0, 0].take (FrequencyProcessor.new 44100 2).buffer_size,
          (FrequencyProcessor.new 44100 2).window, 0⟩)) :=
  C1_amended_first_completion (FrequencyProcessor.new 44100 2) [1, 1, 0, 0] 2
    (by simp [FrequencyProcessor.new]) rfl
    (by norm_num [FrequencyProcessor.new]) (by norm_num)
    (by norm_num [FrequencyProcessor.new])

/-! ## Peak-search characterization -/

/-- Invariant of the peak-search fold over an index range: the result
bounds every scanned magnitude, is nonnegative, and — unless no strictly
positive magnitude was seen, in which case it is the initial
`(0, 0)` — names the first index attaining the maximum. -/
lemma peak_foldl_spec (spectrum : List ℝ) (lo : ℕ) :
    ∀ (n : ℕ) (m : ℝ) (b : ℕ),
      (List.range' lo n).foldl
        (fun acc i => if spectrum.getD i 0 > acc.1 then (spectrum.getD i 0, i) else acc)
        (0, 0) = (m, b) →
      (∀ i, lo ≤ i → i < lo + n → spectrum.getD i 0 ≤ m) ∧ 0 ≤ m ∧
      (((m, b) : ℝ × ℕ) = (0, 0) ∨
        (lo ≤ b ∧ b < lo + n ∧ spectrum.getD b 0 = m ∧ 0 < m ∧
          ∀ i, lo ≤ i → i < b → spectrum.getD i 0 < m)) := by
  intro n
  induction n with
  | zero =>
    intro m b h
    simp only [List.range'_zero, List.foldl_nil, Prod.mk.injEq] at h
    obtain ⟨rfl, rfl⟩ := h
    exact ⟨fun i h1 h2 => by omega, le_refl 0, Or.inl rfl⟩
  | succ n IH =>
    intro m b h
    rw [List.range'_concat, List.foldl_append] at h
    rcases hfold : (List.range' lo n).foldl
        (fun acc i => if spectrum.getD i 0 > acc.1 then (spectrum.getD i 0, i) else acc)
        (0, 0) with ⟨m0, b0⟩
    rw [hfold] at h
    obtain ⟨hub, hnn, hdisj⟩ := IH m0 b0 hfold
    simp only [List.foldl_cons, List.foldl_nil, one_mul] at h
    by_cases hgt : spectrum.getD (lo + n) 0 > m0
    · rw [if_pos hgt, Prod.mk.injEq] at h
      obtain ⟨rfl, rfl⟩ := h
      refine ⟨?_, le_of_lt (lt_of_le_of_lt hnn hgt), Or.inr
        ⟨by omega, by omega, rfl, lt_of_le_of_lt hnn hgt, ?_⟩⟩
      · intro i h1 h2
        rcases Nat.lt_succ_iff_lt_or_eq.mp (by omega : i < (lo + n) + 1) with h3 | h3
        · exact le_of_lt (lt_of_le_of_lt (hub i h1 (by omega)) hgt)
        · rw [h3]
      · intro i h1 h2
        exact lt_of_le_of_lt (hub i h1 (by omega)) hgt
    · rw [if_neg hgt, Prod.mk.injEq] at h
      obtain ⟨rfl, rfl⟩ := h
      refine ⟨?_, hnn, ?_⟩
      · intro i h1 h2
        rcases Nat.lt_succ_iff_lt_or_eq.mp (by omega : i < (lo + n) + 1) with h3 | h3
        · exact hub i h1 h3
        · rw [h3]; exact le_of_not_lt hgt
      · rcases hdisj with h3 | ⟨h3, h4, h5, h6, h7⟩
        · exact Or.inl h3
        · exact Or.inr ⟨h3, by omega, h5, h6, h7⟩

/-- If every magnitude is `≤ 0`, the scan never updates and returns the
initial `(0, 0)`. -/
lemma peakScan_of_nonpos (spectrum : List ℝ) (lo hi : ℕ)
    (h : ∀ i, spectrum.getD i 0 ≤ 0) : peakScan spectrum lo hi = (0, 0) := by
  unfold peakScan
  generalize List.range' lo (hi + 1 - lo) = l
  induction l with
  | nil => rfl
  | cons i t IHt =>
    rw [List.foldl_cons, if_neg (not_lt.mpr (h i))]
    exact IHt

/-! ## C4 — band restriction and first-argmax peak selection -/

/-- C4: the search band is `min_bin = ⌊50·N/sr⌋ ..= min(⌊450·N/sr⌋, len-1)`;
for `sr = 44100`, `N = 1024` (spectrum length `512`) this is bins
`1 ..= 10`.  Whenever the scan finds a positive peak (in particular
whenever a peak passes the reporting gate), the selected bin lies inside
the band, carries the scanned maximum, and every earlier in-band bin is
strictly smaller (ties keep the lowest index, the comparison being
strict `>`); hence a peak outside the band is never selected. -/
theorem C4_band_restriction :
    (minBinOf 44100 1024 = 1 ∧ maxBinRawOf 44100 1024 = 10 ∧
      ∀ st : FrequencyProcessor, st.buffer_size = 1024 →
        min (maxBinRawOf 44100 1024) ((spectrumOf st).length - 1) = 10) ∧
    ∀ (spectrum : List ℝ) (lo hi : ℕ) (m : ℝ) (b : ℕ),
      peakScan spectrum lo hi = (m, b) → 0 < m →
      lo ≤ b ∧ b ≤ hi ∧ spectrum.getD b 0 = m ∧
      (∀ i, lo ≤ i → i ≤ hi → spectrum.getD i 0 ≤ m) ∧
      (∀ i, lo ≤ i → i ≤ hi → i < b → spectrum.getD i 0 < m) := by
  constructor
  · have hmin : minBinOf 44100 1024 = 1 := by
      unfold minBinOf
      rw [Nat.floor_eq_iff (by positivity)]
      norm_num
    have hmax : maxBinRawOf 44100 1024 = 10 := by
      unfold maxBinRawOf
      rw [Nat.floor_eq_iff (by positivity)]
      norm_num
    refine ⟨hmin, hmax, fun st hst => ?_⟩
    rw [hmax]
    have : (spectrumOf st).length = 512 := by
      simp [spectrumOf, hst]
    rw [this]
    omega
  · intro spectrum lo hi m b hscan hm
    obtain ⟨hub, _, hdisj⟩ := peak_foldl_spec spectrum lo (hi + 1 - lo) m b hscan
    rcases hdisj with h0 | ⟨h1, h2, h3, _, h5⟩
    · exact absurd (congrArg Prod.fst h0) (by simpa using ne_of_gt hm)
    · have hlohi : lo ≤ hi := by omega
      exact ⟨h1, by omega, h3,
        fun i ha hb => hub i ha (by omega),
        fun i ha hb hc => h5 i ha hc⟩

/-- Witness for C4's peak-selection part at a concrete spectrum. -/
theorem C4_band_restriction_witness :
    peakScan [0, 5, 3] 1 2 = (5, 1) ∧ (0 : ℝ) < 5 ∧
    (1 ≤ 1 ∧ 1 ≤ 2 ∧ [(0 : ℝ), 5, 3].getD 1 0 = 5 ∧
      (∀ i, 1 ≤ i → i ≤ 2 → [(0 : ℝ), 5, 3].getD i 0 ≤ 5) ∧
      (∀ i, 1 ≤ i → i ≤ 2 → i < 1 → [(0 : ℝ), 5, 3].getD i 0 < 5)) := by
  have hscan : peakScan [(0 : ℝ), 5, 3] 1 2 = (5, 1) := by
    norm_num [peakScan, List.range', List.getD]
  exact ⟨hscan, by norm_num, C4_band_restriction.2 [0, 5, 3] 1 2 5 1 hscan (by norm_num)⟩

/-! ## C3 — the silence gate -/

/-- C3, amended: the gate is the strict comparison `max_magnitude > 0.001`:
if the peak magnitude is **less than or equal to** `0.001` the reported
dominant frequency is `0` regardless of the interpolated value, and if it
is strictly greater than `0.001` the interpolated frequency is reported.
(The claim as stated puts the boundary case `= 0.001` on the interpolated
side; the code puts it on the zero side.) -/
theorem C3_amended_gate (st : FrequencyProcessor) :
    ((peakScan (spectrumOf st) (minBinOf st.sample_rate st.buffer_size)
        (min (maxBinRawOf st.sample_rate st.buffer_size)
          ((spectrumOf st).length - 1))).1 ≤ 0.001 →
      (analyze_frequency st).dominant_frequency = 0) ∧
    (0.001 < (peakScan (spectrumOf st) (minBinOf st.sample_rate st.buffer_size)
        (min (maxBinRawOf st.sample_rate st.buffer_size)
          ((spectrumOf st).length - 1))).1 →
      (analyze_frequency st).dominant_frequency =
        interpolateFrequency (spectrumOf st) st.sample_rate st.buffer_size
          (peakScan (spectrumOf st) (minBinOf st.sample_rate st.buffer_size)
            (min (maxBinRawOf st.sample_rate st.buffer_size)
              ((spectrumOf st).length - 1))).2) := by
  rw [analyze_frequency_dominant]
  constructor
  · intro h
    rw [if_neg (not_lt.mpr h)]
  · intro h
    rw [if_pos h]

/-! ## Zero-window lemmas and C7 -/

lemma windowedInput_new_getD (sr : ℝ) (N j : ℕ) :
    (windowedInput (FrequencyProcessor.new sr N)).getD j 0 = 0 := by
  unfold windowedInput FrequencyProcessor.new
  by_cases hj : j < (List.zipWith (fun s w => ((s * w : ℝ) : ℂ))
      (List.replicate N (0 : ℝ)) (hannWindow N)).length
  · rw [List.getD_eq_getElem _ _ hj, List.getElem_zipWith]
    have hjN : j < N := by
      have := hj
      simp only [List.length_zipWith, List.length_replicate] at this
      omega
    rw [List.getElem_replicate]
    norm_num
  · exact List.getD_eq_default _ _ (le_of_not_lt hj)

lemma spectrumOf_new_getD (sr : ℝ) (N k : ℕ) :
    (spectrumOf (FrequencyProcessor.new sr N)).getD k 0 = 0 := by
  unfold spectrumOf
  by_cases hk : k < ((FrequencyProcessor.new sr N).buffer_size / 2)
  · rw [List.getD_eq_getElem _ _ (by simpa using hk), List.getElem_map,
      List.getElem_range]
    have hdft : dft (FrequencyProcessor.new sr N).buffer_size
        (fun j => (windowedInput (FrequencyProcessor.new sr N)).getD j 0) k = 0 := by
      unfold dft
      refine Finset.sum_eq_zero fun j hj => ?_
      dsimp only
      rw [windowedInput_new_getD]
      exact zero_mul _
    rw [hdft]
    exact map_zero Complex.abs
  · exact List.getD_eq_default _ _ (by simpa using le_of_not_lt hk)

/-- C7: an all-zero analysis window of size `N` (the freshly constructed
processor state, whose buffer is `N` zeros) yields `amplitude = 0` and
`dominant_frequency = 0`. -/
theorem C7_zero_window (sr : ℝ) (N : ℕ) :
    (analyze_frequency (FrequencyProcessor.new sr N)).amplitude = 0 ∧
    (analyze_frequency (FrequencyProcessor.new sr N)).dominant_frequency = 0 := by
  constructor
  · rw [analyze_frequency_amplitude]
    have hsum : (((FrequencyProcessor.new sr N).buffer.map (fun x => x * x)).sum : ℝ) = 0 := by
      simp [FrequencyProcessor.new]
    rw [hsum, zero_div, Real.sqrt_zero]
  · rw [analyze_frequency_dominant,
      peakScan_of_nonpos _ _ _ (fun i => le_of_eq (spectrumOf_new_getD sr N i))]
    norm_num

/-- Witness for the amended C3: the all-zero window has peak magnitude
`0 ≤ 0.001`, and the reported dominant frequency is `0`. -/
theorem C3_amended_gate_witness :
    (analyze_frequency (FrequencyProcessor.new 8 4)).dominant_frequency = 0 := by
  have h := (C3_amended_gate (FrequencyProcessor.new 8 4)).1
  rw [peakScan_of_nonpos _ _ _ (fun i => le_of_eq (spectrumOf_new_getD 8 4 i))] at h
  exact h (by norm_num)

/-! ## C8 — mono downmix -/

lemma listChunks_cons_of_full (C : ℕ) (chunk rest : List ℝ)
    (hC : 0 < C) (hlen : chunk.length = C) :
    listChunks C (chunk ++ rest) = chunk :: listChunks C rest := by
  cases C with
  | zero => omega
  | succ c =>
    cases chunk with
    | nil => simp at hlen
    | cons x xs =>
      have hxs : xs.length = c := by simpa using hlen
      simp only [List.cons_append, listChunks, List.take_succ_cons,
        List.drop_succ_cons]
      rw [List.take_left' hxs, List.drop_left' hxs]

lemma monoSamples_chunked :
    ∀ (k C : ℕ) (data : List ℝ), 0 < C → C ≠ 1 → data.length = k * C →
      (monoSamples C data).length = k ∧
      ∀ i, i < k →
        (monoSamples C data).getD i 0 = ((data.drop (i * C)).take C).sum / (C : ℝ) := by
  intro k
  induction k with
  | zero =>
    intro C data hC hC1 hlen
    have : data = [] := List.length_eq_zero.mp (by omega)
    subst this
    constructor
    · simp [monoSamples, if_neg hC1]
      cases C with
      | zero => omega
      | succ c => simp [listChunks]
    · intro i hi
      omega
  | succ k IHk =>
    intro C data hC hC1 hlen
    have hsplit : data = data.take C ++ data.drop C := (List.take_append_drop C data).symm
    have htake : (data.take C).length = C := by
      rw [List.length_take]
      have : C ≤ data.length := by
        rw [hlen]
        calc C = 1 * C := (one_mul C).symm
        _ ≤ (k + 1) * C := Nat.mul_le_mul_right _ (by omega)
      omega
    have hdrop : (data.drop C).length = k * C := by
      rw [List.length_drop, hlen]
      ring_nf
      omega
    have hrw : monoSamples C data =
        ((data.take C).sum / (C : ℝ)) :: monoSamples C (data.drop C) := by
      rw [monoSamples, if_neg hC1]
      conv_lhs => rw [hsplit]
      rw [listChunks_cons_of_full C _ _ hC htake, List.map_cons]
      rw [monoSamples, if_neg hC1]
    obtain ⟨IHlen, IHget⟩ := IHk C (data.drop C) hC hC1 hdrop
    constructor
    · rw [hrw, List.length_cons, IHlen]
    · intro i hi
      cases i with
      | zero =>
        rw [hrw]
        simp
      | succ i =>
        rw [hrw]
        have hstep : data.drop ((i + 1) * C) = (data.drop C).drop (i * C) := by
          rw [List.drop_drop]
          congr 1
          ring
        simp only [List.getD_cons_succ]
        rw [IHget i (by omega), hstep]

/-- Counterexample to C8 as stated: with `C = 2` channels and the
non-frame-aligned input `[1]`, the code produces one output sample
`1/2 = (sum of the partial frame)/C`, whereas the claim demands output
length `1 / 2 = 0` and each output equal to the arithmetic mean of its
frame's values (here `1`). -/
theorem C8_counterexample :
    monoSamples 2 [1] = [1 / 2] ∧
    (monoSamples 2 [1]).length = 1 ∧ ([(1 : ℝ)].length) / 2 = 0 ∧
    ([(1 : ℝ)].sum / ([(1 : ℝ)].length : ℝ)) = 1 ∧ ((1 : ℝ) / 2) ≠ 1 := by
  norm_num [monoSamples, listChunks]

/-- C8, amended: for every input chunk whose length is a whole number of
frames (`len = k·C`, `C ≥ 1`), the output length is `len / C` and each
produced mono sample is the arithmetic mean of the `C` interleaved channel
values of its frame (for `C = 1`, the directly converted sample itself;
a partial trailing frame — excluded here — is averaged over `C`, not over
its actual size). -/
theorem C8_downmix (C : ℕ) (data : List ℝ) (k : ℕ) (hC : 1 ≤ C)
    (hlen : data.length = k * C) :
    (monoSamples C data).length = data.length / C ∧
    ∀ i, i < k →
      (monoSamples C data).getD i 0 = ((data.drop (i * C)).take C).sum / (C : ℝ) := by
  have hdiv : data.length / C = k := by
    rw [hlen, Nat.mul_div_cancel _ (by omega)]
  by_cases hC1 : C = 1
  · subst hC1
    have hid : monoSamples 1 data = data := by rw [monoSamples, if_pos rfl]
    constructor
    · rw [hid, Nat.div_one]
    · intro i hi
      have hilen : i < data.length := by omega
      rw [hid, List.getD_eq_getElem _ _ hilen, mul_one,
        List.drop_eq_getElem_cons hilen]
      simp only [List.take_succ_cons, List.take_zero, List.sum_cons,
        List.sum_nil, add_zero, Nat.cast_one, div_one]
  · rw [hdiv]
    exact monoSamples_chunked k C data (by omega) hC1 hlen

/-- Witness for the amended C8 at `C = 2`, `data = [1, 3, 5, 7]`. -/
theorem C8_downmix_witness :
    (monoSamples 2 [1, 3, 5, 7]).length = [(1 : ℝ), 3, 5, 7].length / 2 ∧
    ∀ i, i < 2 →
      (monoSamples 2 [1, 3, 5, 7]).getD i 0 =
        (([(1 : ℝ), 3, 5, 7].drop (i * 2)).take 2).sum / (2 : ℝ) :=
  C8_downmix 2 [1, 3, 5, 7] 2 (by norm_num) (by norm_num)

lemma cc_zero : cc 0 = 1 := by
  unfold cc
  norm_num

lemma cc13_lt_cc11 : cc 13 < cc 11 := by
  unfold cc
  apply Real.cos_lt_cos_of_nonneg_of_le_pi
  · positivity
  · nlinarith [Real.pi_pos]
  · nlinarith [Real.pi_pos]

lemma cc_sub_ne : cc 13 - cc 11 ≠ 0 :=
  sub_ne_zero_of_ne (ne_of_lt cc13_lt_cc11)

lemma cc_period (q r : ℕ) : cc (1024 * q + r) = cc r := by
  unfold cc
  have h : (2 * π * ((1024 * q + r : ℕ) : ℝ) / 1024) =
      2 * π * r / 1024 + (q : ℤ) * (2 * π) := by
    push_cast
    ring
  rw [h, Real.cos_add_int_mul_two_pi]

lemma cc_reflect (r : ℕ) (h : r ≤ 1024) : cc (1024 - r) = cc r := by
  unfold cc
  have h2 : (2 * π * ((1024 - r : ℕ) : ℝ) / 1024) = 2 * π - 2 * π * r / 1024 := by
    push_cast [h]
    ring
  rw [h2, Real.cos_two_pi_sub]

lemma cc_1023 : cc 1023 = cc 1 := by
  have := cc_reflect 1 (by norm_num)
  norm_num at this
  exact this

lemma cc_11253 : cc 11253 = cc 11 := by
  have h1 := cc_period 10 1013
  norm_num at h1
  have h2 := cc_reflect 11 (by norm_num)
  norm_num at h2
  rw [h1, h2]

lemma cc_13299 : cc 13299 = cc 13 := by
  have h1 := cc_period 12 1011
  norm_num at h1
  have h2 := cc_reflect 13 (by norm_num)
  norm_num at h2
  rw [h1, h2]

lemma mixX_zero (A0 A1 : ℝ) : mixX A0 A1 0 = 0 := by
  unfold mixX mixU
  norm_num [cc_zero]
  ring

lemma mixV_cancel (A0 A1 : ℝ) :
    2 * mixV A0 A1 * (cc 13 - cc 11) =
      A0 * cc 11 + 2 * A1 * cc 11 - A0 - 2 * A1 * cc 1 := by
  have hne : cc 13 - cc 11 ≠ 0 := cc_sub_ne
  unfold mixV
  field_simp
  ring

lemma mixX_last (A0 A1 : ℝ) : mixX A0 A1 1023 = 0 := by
  unfold mixX
  rw [show (11 * 1023 : ℕ) = 11253 by norm_num,
    show (13 * 1023 : ℕ) = 13299 by norm_num, cc_1023, cc_11253, cc_13299,
    div_eq_zero_iff]
  left
  unfold mixU
  linear_combination mixV_cancel A0 A1

lemma hannCoeff_zero : hannCoeff 1024 0 = 0 := by
  unfold hannCoeff
  norm_num

lemma hannCoeff_last : hannCoeff 1024 1023 = 0 := by
  unfold hannCoeff
  norm_num

lemma hannCoeff_ne (j : ℕ) (h1 : 0 < j) (h2 : j < 1023) :
    hannCoeff 1024 j ≠ 0 := by
  unfold hannCoeff
  intro h
  have hcos : Real.cos (2 * π * j / ((1023 : ℕ) : ℝ)) = 1 := by
    norm_num at h
    linarith
  obtain ⟨n, hn⟩ := (Real.cos_eq_one_iff _).mp hcos
  have hpi : (0 : ℝ) < π := Real.pi_pos
  have hj : (1023 : ℝ) * n = j := by
    have h3 : (n : ℝ) * (2 * π) * 1023 = 2 * π * j / ((1023 : ℕ) : ℝ) * 1023 := by
      rw [hn]
    have h4 : 2 * π * (j : ℝ) / ((1023 : ℕ) : ℝ) * 1023 = 2 * π * j := by
      push_cast
      field_simp
    rw [h4] at h3
    nlinarith
  have hj2 : (1023 : ℤ) * n = j := by exact_mod_cast hj
  omega

lemma length_mixSamples (A0 A1 : ℝ) : (mixSamples A0 A1).length = 1024 := by
  unfold mixSamples
  simp

lemma windowedInput_mix_eq (A0 A1 : ℝ) :
    windowedInput (mixState A0 A1) =
      (List.range 1024).map
        (fun j => ((mixSample A0 A1 j * hannCoeff 1024 j : ℝ) : ℂ)) := by
  unfold windowedInput mixState mixSamples hannWindow
  rw [List.zipWith_map_left, List.zipWith_map_right, List.zipWith_same]

lemma windowedInput_mix_getD (A0 A1 : ℝ) (j : ℕ) (hj : j < 1024) :
    (windowedInput (mixState A0 A1)).getD j 0 = ((mixX A0 A1 j : ℝ) : ℂ) := by
  rw [windowedInput_mix_eq,
    List.getD_eq_getElem _ _ (by simpa using hj), List.getElem_map,
    List.getElem_range]
  norm_cast
  rcases Nat.eq_zero_or_pos j with hj0 | hjpos
  · subst hj0
    rw [hannCoeff_zero, mixX_zero]
    norm_num
  · by_cases hjlast : j = 1023
    · subst hjlast
      rw [hannCoeff_last, mixX_last]
      norm_num
    · have hne := hannCoeff_ne j hjpos (by omega)
      unfold mixSample
      rw [div_mul_cancel₀ _ hne]

/-! ## DFT evaluation on the constructed window -/

lemma eunit_eq_pow (t : ℤ) (j : ℕ) :
    eunit t j = Complex.exp (2 * (π : ℂ) * Complex.I * t / 1024) ^ j := by
  rw [← Complex.exp_nat_mul]
  unfold eunit
  congr 1
  ring

lemma sum_eunit (t : ℤ) :
    ∑ j ∈ Finset.range 1024, eunit t j =
      if (1024 : ℤ) ∣ t then (1024 : ℂ) else 0 := by
  by_cases h : (1024 : ℤ) ∣ t
  · rw [if_pos h]
    obtain ⟨s, rfl⟩ := h
    have h1 : ∀ j ∈ Finset.range 1024, eunit (1024 * s) j = 1 := by
      intro j _
      unfold eunit
      rw [show (2 * (π : ℂ) * Complex.I * ((1024 * s : ℤ) : ℂ) * j / 1024) =
          ((s * j : ℤ) : ℂ) * (2 * π * Complex.I) by push_cast; ring]
      exact Complex.exp_int_mul_two_pi_mul_I _
    rw [Finset.sum_congr rfl h1]
    simp
  · rw [if_neg h]
    have hpi : ((π : ℂ)) ≠ 0 := by
      exact_mod_cast Real.pi_ne_zero
    have hne : (2 * (π : ℂ) * Complex.I) ≠ 0 := by
      simp [hpi, Complex.I_ne_zero]
    have hω : Complex.exp (2 * (π : ℂ) * Complex.I * t / 1024) ≠ 1 := by
      rw [Ne, Complex.exp_eq_one_iff]
      rintro ⟨n, hn⟩
      apply h
      have h3 : (t : ℂ) / 1024 * (2 * (π : ℂ) * Complex.I) =
          (n : ℂ) * (2 * (π : ℂ) * Complex.I) := by
        rw [← hn]
        ring
      have h4 : (t : ℂ) / 1024 = (n : ℂ) := mul_right_cancel₀ hne h3
      have h5 : (t : ℂ) = (n : ℂ) * 1024 := by
        field_simp at h4
        linear_combination h4
      have h6 : t = n * 1024 := by exact_mod_cast h5
      exact ⟨n, by omega⟩
    rw [Finset.sum_congr rfl (fun j _ => eunit_eq_pow t j), geom_sum_eq hω]
    have h7 : Complex.exp (2 * (π : ℂ) * Complex.I * t / 1024) ^ 1024 = 1 := by
      rw [← Complex.exp_nat_mul,
        show ((1024 : ℕ) : ℂ) * (2 * (π : ℂ) * Complex.I * t / 1024) =
          (t : ℂ) * (2 * π * Complex.I) by push_cast; ring]
      exact Complex.exp_int_mul_two_pi_mul_I t
    rw [h7, sub_self, zero_div]

lemma bexp_zero (j : ℕ) : bexp 0 j = 1 := by
  unfold bexp
  norm_num

lemma two_cos_eq (m j : ℕ) (hm : m ≤ 1024) :
    ((2 * cc (m * j) : ℝ) : ℂ) = bexp m j + bexp (1024 - m) j := by
  have h1 : ((2 * cc (m * j) : ℝ) : ℂ) =
      2 * Complex.cos (((2 * π * (m * j : ℕ) / 1024 : ℝ) : ℂ)) := by
    unfold cc
    push_cast
    ring_nf
  rw [h1, Complex.two_cos]
  have h2 : (((2 * π * (m * j : ℕ) / 1024 : ℝ) : ℂ)) * Complex.I =
      2 * (π : ℂ) * Complex.I * m * j / 1024 := by
    push_cast
    ring
  have h3 : -(((2 * π * (m * j : ℕ) / 1024 : ℝ) : ℂ)) * Complex.I =
      2 * (π : ℂ) * Complex.I * ((1024 - m : ℕ) : ℂ) * j / 1024 +
        -((j : ℂ) * (2 * π * Complex.I)) := by
    push_cast [hm]
    ring
  rw [h2, h3, Complex.exp_add]
  unfold bexp
  have h4 : Complex.exp (-((j : ℂ) * (2 * (π : ℂ) * Complex.I))) = 1 := by
    rw [show -((j : ℂ) * (2 * (π : ℂ) * Complex.I)) =
        ((-(j : ℤ) : ℤ) : ℂ) * (2 * π * Complex.I) by push_cast; ring]
    exact Complex.exp_int_mul_two_pi_mul_I _
  rw [h4, mul_one]

lemma mixX_complex (A0 A1 : ℝ) (j : ℕ) :
    ((mixX A0 A1 j : ℝ) : ℂ) =
      (1 / 1024 : ℂ) * ((A0 : ℂ) * bexp 0 j
        + (A1 : ℂ) * (bexp 1 j + bexp 1023 j)
        + (mixU A0 A1 : ℂ) * (bexp 11 j + bexp 1013 j)
        + (mixV A0 A1 : ℂ) * (bexp 13 j + bexp 1011 j)) := by
  have h1 := two_cos_eq 1 j (by norm_num)
  have h11 := two_cos_eq 11 j (by norm_num)
  have h13 := two_cos_eq 13 j (by norm_num)
  rw [one_mul] at h1
  norm_num at h1 h11 h13
  rw [← h1, ← h11, ← h13, bexp_zero]
  unfold mixX
  push_cast
  ring

lemma bexp_mul (m k j : ℕ) :
    bexp m j * Complex.exp (-(2 * (π : ℂ) * Complex.I) * ((j : ℂ) * (k : ℂ)) /
      ((1024 : ℕ) : ℂ)) = eunit ((m : ℤ) - (k : ℤ)) j := by
  unfold bexp eunit
  rw [← Complex.exp_add]
  congr 1
  push_cast
  ring

/-- The DFT of the constructed windowed signal: supported on bins
`0, 1, 11, 13` in the retained half-spectrum, with values
`A0, A1, mixU, mixV`. -/
lemma dft_mix (A0 A1 : ℝ) (k : ℕ) (hk : k < 512) :
    dft 1024 (fun j => (windowedInput (mixState A0 A1)).getD j 0) k
      = (if k = 0 then (A0 : ℂ) else 0) + (if k = 1 then (A1 : ℂ) else 0)
        + (if k = 11 then (mixU A0 A1 : ℂ) else 0)
        + (if k = 13 then (mixV A0 A1 : ℂ) else 0) := by
  have h0 : dft 1024 (fun j => (windowedInput (mixState A0 A1)).getD j 0) k =
      ∑ j ∈ Finset.range 1024, ((1 / 1024 : ℂ) *
        ((A0 : ℂ) * eunit (((0 : ℕ) : ℤ) - (k : ℤ)) j
        + (A1 : ℂ) * eunit (((1 : ℕ) : ℤ) - (k : ℤ)) j
        + (A1 : ℂ) * eunit (((1023 : ℕ) : ℤ) - (k : ℤ)) j
        + (mixU A0 A1 : ℂ) * eunit (((11 : ℕ) : ℤ) - (k : ℤ)) j
        + (mixU A0 A1 : ℂ) * eunit (((1013 : ℕ) : ℤ) - (k : ℤ)) j
        + (mixV A0 A1 : ℂ) * eunit (((13 : ℕ) : ℤ) - (k : ℤ)) j
        + (mixV A0 A1 : ℂ) * eunit (((1011 : ℕ) : ℤ) - (k : ℤ)) j)) := by
    unfold dft
    refine Finset.sum_congr rfl fun j hj => ?_
    dsimp only
    rw [windowedInput_mix_getD A0 A1 j (Finset.mem_range.mp hj), mixX_complex,
      ← bexp_mul 0 k j, ← bexp_mul 1 k j, ← bexp_mul 1023 k j, ← bexp_mul 11 k j,
      ← bexp_mul 1013 k j, ← bexp_mul 13 k j, ← bexp_mul 1011 k j]
    ring
  rw [h0, ← Finset.mul_sum]
  simp only [Finset.sum_add_distrib, ← Finset.mul_sum, sum_eunit]
  by_cases hk0 : k = 0
  · subst hk0
    norm_num
    ring
  · by_cases hk1 : k = 1
    · subst hk1
      norm_num
      ring
    · by_cases hk11 : k = 11
      · subst hk11
        norm_num
        ring
      · by_cases hk13 : k = 13
        · subst hk13
          norm_num
          ring
        · rw [if_neg (by omega : ¬ (1024 : ℤ) ∣ (((0 : ℕ) : ℤ) - (k : ℤ))),
            if_neg (by omega : ¬ (1024 : ℤ) ∣ (((1 : ℕ) : ℤ) - (k : ℤ))),
            if_neg (by omega : ¬ (1024 : ℤ) ∣ (((1023 : ℕ) : ℤ) - (k : ℤ))),
            if_neg (by omega : ¬ (1024 : ℤ) ∣ (((11 : ℕ) : ℤ) - (k : ℤ))),
            if_neg (by omega : ¬ (1024 : ℤ) ∣ (((1013 : ℕ) : ℤ) - (k : ℤ))),
            if_neg (by omega : ¬ (1024 : ℤ) ∣ (((13 : ℕ) : ℤ) - (k : ℤ))),
            if_neg (by omega : ¬ (1024 : ℤ) ∣ (((1011 : ℕ) : ℤ) - (k : ℤ))),
            if_neg hk0, if_neg hk1, if_neg hk11, if_neg hk13]
          ring

lemma spectrumOf_mix_length (A0 A1 : ℝ) :
    (spectrumOf (mixState A0 A1)).length = 512 := by
  unfold spectrumOf
  rw [List.length_map, List.length_range,
    show (mixState A0 A1).buffer_size = 1024 from rfl]

lemma spectrumOf_mix_getD (A0 A1 : ℝ) (k : ℕ) (hk : k < 512) :
    (spectrumOf (mixState A0 A1)).getD k 0 =
      Complex.abs ((if k = 0 then (A0 : ℂ) else 0) + (if k = 1 then (A1 : ℂ) else 0)
        + (if k = 11 then (mixU A0 A1 : ℂ) else 0)
        + (if k = 13 then (mixV A0 A1 : ℂ) else 0)) := by
  unfold spectrumOf
  have hlen : k < ((List.range ((mixState A0 A1).buffer_size / 2)).map
      (fun k => Complex.abs (dft (mixState A0 A1).buffer_size
        (fun j => (windowedInput (mixState A0 A1)).getD j 0) k))).length := by
    rw [List.length_map, List.length_range,
      show (mixState A0 A1).buffer_size = 1024 from rfl]
    omega
  rw [List.getD_eq_getElem _ _ hlen, List.getElem_map, List.getElem_range]
  rw [show (mixState A0 A1).buffer_size = 1024 from rfl, dft_mix A0 A1 k hk]

/-! ## C10 — a window whose reported dominant frequency is negative -/

lemma minBin_51200 : minBinOf 51200 1024 = 1 := by
  unfold minBinOf
  rw [Nat.floor_eq_iff (by positivity)]
  norm_num

lemma maxBinRaw_51200 : maxBinRawOf 51200 1024 = 9 := by
  unfold maxBinRawOf
  rw [Nat.floor_eq_iff (by positivity)]
  norm_num

lemma c10_s0 : (spectrumOf (mixState (3 / 2) 1)).getD 0 0 = 3 / 2 := by
  rw [spectrumOf_mix_getD _ _ 0 (by norm_num)]
  norm_num [Complex.abs_ofReal]

lemma c10_s1 : (spectrumOf (mixState (3 / 2) 1)).getD 1 0 = 1 := by
  rw [spectrumOf_mix_getD _ _ 1 (by norm_num)]
  norm_num [Complex.abs_ofReal]

lemma c10_szero : ∀ i, 2 ≤ i → i ≤ 9 →
    (spectrumOf (mixState (3 / 2) 1)).getD i 0 = 0 := by
  intro i h2 h9
  rw [spectrumOf_mix_getD _ _ i (by omega)]
  rw [if_neg (by omega), if_neg (by omega), if_neg (by omega), if_neg (by omega)]
  simp

lemma c10_scan : peakScan (spectrumOf (mixState (3 / 2) 1)) 1 9 = (1, 1) := by
  unfold peakScan
  rw [show (9 + 1 - 1 : ℕ) = 9 from rfl,
    show List.range' 1 9 = [1, 2, 3, 4, 5, 6, 7, 8, 9] from rfl]
  simp only [List.foldl_cons, List.foldl_nil, c10_s1,
    c10_szero 2 (by norm_num) (by norm_num), c10_szero 3 (by norm_num) (by norm_num),
    c10_szero 4 (by norm_num) (by norm_num), c10_szero 5 (by norm_num) (by norm_num),
    c10_szero 6 (by norm_num) (by norm_num), c10_szero 7 (by norm_num) (by norm_num),
    c10_szero 8 (by norm_num) (by norm_num), c10_szero 9 (by norm_num) (by norm_num)]
  norm_num

lemma c10_df :
    (analyze_frequency (mixState (3 / 2) 1)).dominant_frequency = -25 := by
  rw [analyze_frequency_dominant,
    show (mixState (3 / 2) 1).sample_rate = 51200 from rfl,
    show (mixState (3 / 2) 1).buffer_size = 1024 from rfl,
    minBin_51200, maxBinRaw_51200, spectrumOf_mix_length,
    show (min 9 (512 - 1) : ℕ) = 9 by norm_num, c10_scan]
  rw [if_pos (by norm_num)]
  simp only [interpolateFrequency, spectrumOf_mix_length]
  rw [if_pos (by norm_num : ((1, 1).2 : ℕ) > 0 ∧ ((1, 1).2 : ℕ) < 512 - 1)]
  simp only [show ((1, 1).2 : ℕ) = 1 from rfl, show (1 : ℕ) - 1 = 0 from rfl,
    show (1 : ℕ) + 1 = 2 from rfl, c10_s0, c10_s1,
    c10_szero 2 (by norm_num) (by norm_num)]
  norm_num

set_option maxRecDepth 10000 in
/-- Counterexample to C10 as stated: the concrete 1024-sample window
`mixSamples (3/2) 1` (at `sr = 51200`), fed through `process_samples` on a
fresh processor, completes one analysis window and yields
`dominant_frequency = -25 < 0`: the spectrum has magnitude `3/2` at bin 0
(outside the 50–450 Hz band), `1` at the peak bin 1, and `0` at bin 2, so
the parabolic offset is `-3/2` and the reported frequency
`(1 - 3/2)·50 = -25` is negative. -/
theorem C10_counterexample :
    (process_samples (FrequencyProcessor.new 51200 1024)
        (mixSamples (3 / 2) 1)).2 =
      some (analyze_frequency (mixState (3 / 2) 1)) ∧
    (analyze_frequency (mixState (3 / 2) 1)).dominant_frequency = -25 ∧
    (analyze_frequency (mixState (3 / 2) 1)).dominant_frequency < 0 := by
  refine ⟨?_, c10_df, by rw [c10_df]; norm_num⟩
  have htake : (mixSamples (3 / 2) 1).take 1024 = mixSamples (3 / 2) 1 := by
    conv_lhs => rw [← length_mixSamples (3 / 2) 1]
    exact List.take_length _
  have h := process_samples_of_le_length (mixSamples (3 / 2) 1)
    (FrequencyProcessor.new 51200 1024)
    (by show (List.replicate 1024 (0 : ℝ)).length = 1024
        rw [List.length_replicate])
    (by show (0 : ℕ) < 1024
        norm_num)
    (by show (1024 : ℕ) - 0 ≤ (mixSamples (3 / 2) 1).length
        rw [length_mixSamples])
  have hb : List.take (FrequencyProcessor.new 51200 1024).buffer_pos
        (FrequencyProcessor.new 51200 1024).buffer ++
      List.take ((FrequencyProcessor.new 51200 1024).buffer_size -
        (FrequencyProcessor.new 51200 1024).buffer_pos) (mixSamples (3 / 2) 1) =
      mixSamples (3 / 2) 1 := by
    show List.take 0 (List.replicate 1024 (0 : ℝ)) ++
      List.take (1024 - 0) (mixSamples (3 / 2) 1) = mixSamples (3 / 2) 1
    simpa using htake
  rw [hb] at h
  exact congrArg Prod.snd h

/-! ## C3 counterexample — a peak magnitude exactly at the epsilon -/

lemma c3_s0 : (spectrumOf (mixState 0 (1 / 1000))).getD 0 0 = 0 := by
  rw [spectrumOf_mix_getD _ _ 0 (by norm_num)]
  norm_num

lemma c3_s1 : (spectrumOf (mixState 0 (1 / 1000))).getD 1 0 = 1 / 1000 := by
  rw [spectrumOf_mix_getD _ _ 1 (by norm_num)]
  norm_num [Complex.abs_ofReal]

lemma c3_szero : ∀ i, 2 ≤ i → i ≤ 9 →
    (spectrumOf (mixState 0 (1 / 1000))).getD i 0 = 0 := by
  intro i h2 h9
  rw [spectrumOf_mix_getD _ _ i (by omega)]
  rw [if_neg (by omega), if_neg (by omega), if_neg (by omega), if_neg (by omega)]
  simp

lemma c3_scan :
    peakScan (spectrumOf (mixState 0 (1 / 1000))) 1 9 = (1 / 1000, 1) := by
  unfold peakScan
  rw [show (9 + 1 - 1 : ℕ) = 9 from rfl,
    show List.range' 1 9 = [1, 2, 3, 4, 5, 6, 7, 8, 9] from rfl]
  simp only [List.foldl_cons, List.foldl_nil, c3_s1,
    c3_szero 2 (by norm_num) (by norm_num), c3_szero 3 (by norm_num) (by norm_num),
    c3_szero 4 (by norm_num) (by norm_num), c3_szero 5 (by norm_num) (by norm_num),
    c3_szero 6 (by norm_num) (by norm_num), c3_szero 7 (by norm_num) (by norm_num),
    c3_szero 8 (by norm_num) (by norm_num), c3_szero 9 (by norm_num) (by norm_num)]
  norm_num

lemma c3_df :
    (analyze_frequency (mixState 0 (1 / 1000))).dominant_frequency = 0 := by
  rw [analyze_frequency_dominant,
    show (mixState 0 (1 / 1000)).sample_rate = 51200 from rfl,
    show (mixState 0 (1 / 1000)).buffer_size = 1024 from rfl,
    minBin_51200, maxBinRaw_51200, spectrumOf_mix_length,
    show (min 9 (512 - 1) : ℕ) = 9 by norm_num, c3_scan]
  rw [if_neg (by norm_num)]

lemma c3_interp :
    interpolateFrequency (spectrumOf (mixState 0 (1 / 1000))) 51200 1024 1 = 50 := by
  simp only [interpolateFrequency, spectrumOf_mix_length]
  rw [if_pos (by norm_num : (1 : ℕ) > 0 ∧ (1 : ℕ) < 512 - 1)]
  simp only [show (1 : ℕ) - 1 = 0 from rfl, show (1 : ℕ) + 1 = 2 from rfl,
    c3_s0, c3_s1, c3_szero 2 (by norm_num) (by norm_num)]
  norm_num

/-- Counterexample to C3 as stated: for the concrete 1024-sample window
`mixSamples 0 (1/1000)` (at `sr = 51200`), the peak magnitude in the
search band is exactly `0.001` — so it is **not below** the epsilon — yet
the reported dominant frequency is `0`, not the interpolated frequency
`50`: the gate is the strict comparison `> 0.001`, so the boundary case
falls on the zero side, contradicting the claim's "including exactly
0.001" proviso. -/
theorem C3_counterexample :
    (peakScan (spectrumOf (mixState 0 (1 / 1000))) (minBinOf 51200 1024)
        (min (maxBinRawOf 51200 1024)
          ((spectrumOf (mixState 0 (1 / 1000))).length - 1))).1 = 0.001 ∧
    (analyze_frequency (mixState 0 (1 / 1000))).dominant_frequency = 0 ∧
    interpolateFrequency (spectrumOf (mixState 0 (1 / 1000))) 51200 1024
      (peakScan (spectrumOf (mixState 0 (1 / 1000))) (minBinOf 51200 1024)
        (min (maxBinRawOf 51200 1024)
          ((spectrumOf (mixState 0 (1 / 1000))).length - 1))).2 = 50 ∧
    (50 : ℝ) ≠ 0 := by
  rw [minBin_51200, maxBinRaw_51200, spectrumOf_mix_length,
    show (min 9 (512 - 1) : ℕ) = 9 by norm_num, c3_scan]
  refine ⟨by norm_num, c3_df, ?_, by norm_num⟩
  rw [show ((1 / 1000, 1) : ℝ × ℕ).2 = 1 from rfl]
  exact c3_interp

/-- C10, amended: every `FrequencyResult` produced by a completed window
analysis satisfies `amplitude ≥ 0` (it is a square root); the
`dominant_frequency ≥ 0` half of the claim is false in general — the
parabolic interpolation can report a negative frequency
(see the counterexample). -/
theorem C10_amended_amplitude_nonneg (st : FrequencyProcessor) :
    0 ≤ (analyze_frequency st).amplitude := by
  rw [analyze_frequency_amplitude]
  exact Real.sqrt_nonneg _

end Feminizer
